import Mathlib

/-!
Shallow embedding of the SLM-200 calibration repository
(`calibration/calibrate.py` and `slm_code/slm.py`) together with
theorems checking the repository's specification against it.

Measured data is embedded over `ℚ` wherever the code only compares,
selects and adds finite decimal data (text-file samples, guesses and
bounds), and over `ℝ` where the constant `π` enters (frequency guesses
and model evaluation).  Where behaviour hinges on IEEE-754 binary64
rounding (the phase-register conversion in `slm.py`), that rounding is
modelled exactly on `ℚ`.
-/

namespace Calib

/-- Source `calibrate.py` line 59: squared cosine with linear phase profile,
`a * np.cos(b * (x - x0)) ** 2 + c`. -/
noncomputable def linear_cos_square (x x0 a b c : ℝ) : ℝ :=
  a * Real.cos (b * (x - x0)) ^ 2 + c

/-- Source `calibrate.py` line 63: squared cosine with first order phase
correction, `a * (np.cos(d * (x - x0) ** 2 + b * (x - x0)) ** 2) + c`. -/
noncomputable def nonlinear1_cos_square (x x0 a b c d : ℝ) : ℝ :=
  a * (Real.cos (d * (x - x0) ^ 2 + b * (x - x0)) ^ 2) + c

/-- Source `calibrate.py` line 67: squared cosine with second order phase
correction, `a * np.cos(e * (x - x0) ** 3 + d * (x - x0) ** 2 + b * (x - x0)) ** 2 + c`. -/
noncomputable def nonlinear2_cos_square (x x0 a b c d e : ℝ) : ℝ :=
  a * Real.cos (e * (x - x0) ^ 3 + d * (x - x0) ^ 2 + b * (x - x0)) ^ 2 + c

/-- Model variants of the model library of `calibrate.py`. -/
inductive ModelKind
  | linear
  | firstOrder
  | secondOrder
deriving DecidableEq

/-- Number of parameters (besides the greyscale argument) in each model
function's signature in `calibrate.py` (lines 59, 63, 67). -/
def paramCount : ModelKind → Nat
  | .linear => 4
  | .firstOrder => 5
  | .secondOrder => 6

/-- Evaluation of a model function of `calibrate.py` on a parameter vector,
applying the corresponding source function to the vector entries in
order (this is how `sp.curve_fit` and the starred call at line 124 pass
a parameter vector to the model). -/
noncomputable def evalModel : ModelKind → ℝ → List ℝ → ℝ
  | .linear, x, p =>
      linear_cos_square x (p.getD 0 0) (p.getD 1 0) (p.getD 2 0) (p.getD 3 0)
  | .firstOrder, x, p =>
      nonlinear1_cos_square x (p.getD 0 0) (p.getD 1 0) (p.getD 2 0) (p.getD 3 0) (p.getD 4 0)
  | .secondOrder, x, p =>
      nonlinear2_cos_square x (p.getD 0 0) (p.getD 1 0) (p.getD 2 0) (p.getD 3 0) (p.getD 4 0)
        (p.getD 5 0)

/-- Claim C1: the three model functions equal the specification's reference
definitions — `linear(x; x0, a, b, c) = a·cos(b·(x−x0))² + c`,
`first_order(x; x0, a, b, c, d) = a·cos(d·(x−x0)² + b·(x−x0))² + c`,
`second_order(x; x0, a, b, c, d, e) = a·cos(e·(x−x0)³ + d·(x−x0)² + b·(x−x0))² + c` —
and their parameter vectors have lengths 4, 5 and 6 respectively. -/
theorem models_match_reference (x x0 a b c d e : ℝ) :
    evalModel .linear x [x0, a, b, c] = a * Real.cos (b * (x - x0)) ^ 2 + c
    ∧ evalModel .firstOrder x [x0, a, b, c, d]
        = a * Real.cos (d * (x - x0) ^ 2 + b * (x - x0)) ^ 2 + c
    ∧ evalModel .secondOrder x [x0, a, b, c, d, e]
        = a * Real.cos (e * (x - x0) ^ 3 + d * (x - x0) ^ 2 + b * (x - x0)) ^ 2 + c
    ∧ [x0, a, b, c].length = paramCount .linear
    ∧ [x0, a, b, c, d].length = paramCount .firstOrder
    ∧ [x0, a, b, c, d, e].length = paramCount .secondOrder
    ∧ paramCount .linear = 4 ∧ paramCount .firstOrder = 5 ∧ paramCount .secondOrder = 6 := by
  refine ⟨?_, ?_, ?_, rfl, rfl, rfl, rfl, rfl, rfl⟩
  · simp [evalModel, linear_cos_square]
  · simp [evalModel, nonlinear1_cos_square]
  · simp [evalModel, nonlinear2_cos_square]

/-- First-occurrence maximum of a list together with its index, the
semantics of `np.argmax` paired with `np.max`: ties resolve to the
earliest index, and the empty list gives `none` (where numpy raises). -/
def npArgmax : List ℚ → Option (Nat × ℚ)
  | [] => none
  | x :: xs =>
    match npArgmax xs with
    | none => some (0, x)
    | some (j, v) => if x < v then some (j + 1, v) else some (0, x)

/-- First-occurrence minimum of a list together with its index, the
semantics of `np.argmin` paired with `np.min`. -/
def npArgmin : List ℚ → Option (Nat × ℚ)
  | [] => none
  | x :: xs =>
    match npArgmin xs with
    | none => some (0, x)
    | some (j, v) => if v < x then some (j + 1, v) else some (0, x)

theorem npArgmax_cons_eq (x : ℚ) (xs : List ℚ) :
    npArgmax (x :: xs)
      = match npArgmax xs with
        | none => some (0, x)
        | some (j, v) => if x < v then some (j + 1, v) else some (0, x) := rfl

theorem npArgmin_cons_eq (x : ℚ) (xs : List ℚ) :
    npArgmin (x :: xs)
      = match npArgmin xs with
        | none => some (0, x)
        | some (j, v) => if v < x then some (j + 1, v) else some (0, x) := rfl

theorem npArgmax_ne_none {l : List ℚ} (h : l ≠ []) : npArgmax l ≠ none := by
  cases l with
  | nil => exact absurd rfl h
  | cons x xs =>
    rw [npArgmax_cons_eq]
    cases hxs : npArgmax xs with
    | none => simp
    | some jv =>
      obtain ⟨j, v⟩ := jv
      by_cases hc : x < v <;> simp [hc]

theorem npArgmax_spec {l : List ℚ} {j : Nat} {v : ℚ} (h : npArgmax l = some (j, v)) :
    j < l.length ∧ l.getD j 0 = v ∧ ∀ y ∈ l, y ≤ v := by
  induction l generalizing j v with
  | nil => simp [npArgmax] at h
  | cons x xs ih =>
    rw [npArgmax_cons_eq] at h
    cases hxs : npArgmax xs with
    | none =>
      cases xs with
      | nil =>
        simp [npArgmax] at h
        obtain ⟨hj, hv⟩ := h
        simp [← hj, ← hv, List.getD]
      | cons z zs => exact absurd hxs (npArgmax_ne_none (by simp))
    | some jv =>
      obtain ⟨j0, v0⟩ := jv
      obtain ⟨hlen, hget, hle⟩ := ih hxs
      rw [hxs] at h
      by_cases hc : x < v0
      · simp [hc] at h
        obtain ⟨hj, hv⟩ := h
        refine ⟨?_, ?_, ?_⟩
        · simp [← hj]; omega
        · rw [← hj, ← hv]
          simpa [List.getD] using hget
        · intro y hy
          rcases List.mem_cons.mp hy with hy | hy
          · rw [hy, ← hv]; exact le_of_lt hc
          · rw [← hv]; exact hle y hy
      · simp [hc] at h
        obtain ⟨hj, hv⟩ := h
        refine ⟨?_, ?_, ?_⟩
        · simp [← hj]
        · simp [← hj, ← hv, List.getD]
        · intro y hy
          rcases List.mem_cons.mp hy with hy | hy
          · rw [hy, ← hv]
          · rw [← hv]
            exact le_trans (hle y hy) (le_of_not_lt hc)

theorem npArgmin_ne_none {l : List ℚ} (h : l ≠ []) : npArgmin l ≠ none := by
  cases l with
  | nil => exact absurd rfl h
  | cons x xs =>
    rw [npArgmin_cons_eq]
    cases hxs : npArgmin xs with
    | none => simp
    | some jv =>
      obtain ⟨j, v⟩ := jv
      by_cases hc : v < x <;> simp [hc]

theorem npArgmin_spec {l : List ℚ} {j : Nat} {v : ℚ} (h : npArgmin l = some (j, v)) :
    j < l.length ∧ l.getD j 0 = v ∧ ∀ y ∈ l, v ≤ y := by
  induction l generalizing j v with
  | nil => simp [npArgmin] at h
  | cons x xs ih =>
    rw [npArgmin_cons_eq] at h
    cases hxs : npArgmin xs with
    | none =>
      cases xs with
      | nil =>
        simp [npArgmin] at h
        obtain ⟨hj, hv⟩ := h
        simp [← hj, ← hv, List.getD]
      | cons z zs => exact absurd hxs (npArgmin_ne_none (by simp))
    | some jv =>
      obtain ⟨j0, v0⟩ := jv
      obtain ⟨hlen, hget, hle⟩ := ih hxs
      rw [hxs] at h
      by_cases hc : v0 < x
      · simp [hc] at h
        obtain ⟨hj, hv⟩ := h
        refine ⟨?_, ?_, ?_⟩
        · simp [← hj]; omega
        · rw [← hj, ← hv]
          simpa [List.getD] using hget
        · intro y hy
          rcases List.mem_cons.mp hy with hy | hy
          · rw [hy, ← hv]; exact le_of_lt hc
          · rw [← hv]; exact hle y hy
      · simp [hc] at h
        obtain ⟨hj, hv⟩ := h
        refine ⟨?_, ?_, ?_⟩
        · simp [← hj]
        · simp [← hj, ← hv, List.getD]
        · intro y hy
          rcases List.mem_cons.mp hy with hy | hy
          · rw [hy, ← hv]
          · rw [← hv]
            exact le_trans (le_of_not_lt hc) (hle y hy)

theorem npArgmax_getD_mem {l : List ℚ} {j : Nat} {v : ℚ}
    (h : npArgmax l = some (j, v)) : v ∈ l := by
  obtain ⟨hlen, hget, _⟩ := npArgmax_spec h
  rw [← hget, List.getD_eq_getElem _ _ hlen]
  exact List.getElem_mem hlen

theorem npArgmin_getD_mem {l : List ℚ} {j : Nat} {v : ℚ}
    (h : npArgmin l = some (j, v)) : v ∈ l := by
  obtain ⟨hlen, hget, _⟩ := npArgmin_spec h
  rw [← hget, List.getD_eq_getElem _ _ hlen]
  exact List.getElem_mem hlen

theorem getD_take_eq {l : List ℚ} {n j : Nat} (h : j < (l.take n).length) :
    (l.take n).getD j 0 = l.getD j 0 := by
  have hj : j < l.length := by
    simp [List.length_take] at h
    omega
  rw [List.getD_eq_getElem _ _ h, List.getD_eq_getElem _ _ hj]
  exact List.getElem_take _

/-- One wavelength's raw measurement: the two columns produced by
`np.loadtxt(..., unpack=True)` at line 83 of `calibrate.py`, kept as one
list of (greyscale, intensity) pairs. -/
abbrev Dataset := List (ℚ × ℚ)

/-- Greyscale column `grey` of a dataset. -/
def grey (d : Dataset) : List ℚ := d.map Prod.fst

/-- Intensity column `intensity` of a dataset. -/
def intensity (d : Dataset) : List ℚ := d.map Prod.snd

/-- Index `np.argmax(intensity[:30])` used by the phase-offset and the
frequency guess (lines 85 and 87); defaults to 0 on the empty dataset,
where numpy raises instead. -/
def peakIdx (d : Dataset) : Nat :=
  ((npArgmax ((intensity d).take 30)).map Prod.fst).getD 0

/-- Phase-offset guess `ps_guess = grey[np.argmax(intensity[:30])]` (line 85). -/
def ps_guess (d : Dataset) : ℚ := (grey d).getD (peakIdx d) 0

/-- Amplitude guess `scale_guess = np.max(intensity)` (line 86). -/
def scale_guess (d : Dataset) : ℚ := ((npArgmax (intensity d)).map Prod.snd).getD 0

/-- Index `np.argmin(intensity)` used by the frequency guess (line 87). -/
def minIdx (d : Dataset) : Nat := ((npArgmin (intensity d)).map Prod.fst).getD 0

/-- Intensity-floor guess `i_shift = np.min(intensity)` (line 88). -/
def i_shift (d : Dataset) : ℚ := ((npArgmin (intensity d)).map Prod.snd).getD 0

/-- Absolute value on `ℚ`, the semantics of `np.abs`, written with an
explicit sign test so that it evaluates by kernel reduction. -/
def ratAbs (x : ℚ) : ℚ := if x < 0 then -x else x

theorem ratAbs_eq_abs (x : ℚ) : ratAbs x = |x| := by
  rw [ratAbs]
  by_cases h : x < 0
  · rw [if_pos h, abs_of_neg h]
  · rw [if_neg h, abs_of_nonneg (le_of_not_lt h)]

/-- Denominator `2 * np.abs(grey[np.argmax(intensity[:30])] - grey[np.argmin(intensity)])`
of the frequency guess (line 87). -/
def freqDenom (d : Dataset) : ℚ :=
  2 * ratAbs (ps_guess d - (grey d).getD (minIdx d) 0)

/-- Frequency guess `freq_guess = np.pi / (2 * np.abs(...))` (line 87).
The value `none` stands for the non-finite IEEE quotient numpy produces
when the denominator is zero (numpy emits a warning and yields `inf`;
it does not raise). -/
noncomputable def freq_guess (d : Dataset) : Option ℝ :=
  if freqDenom d = 0 then none else some (Real.pi / (freqDenom d : ℝ))

/-- Phase-offset lower bound `ps_lower = ps_guess - 50` (line 91). -/
def ps_lower (d : Dataset) : ℚ := ps_guess d - 50

/-- Phase-offset upper bound `ps_upper = ps_guess + 50` (line 91). -/
def ps_upper (d : Dataset) : ℚ := ps_guess d + 50

/-- Amplitude lower bound `scale_lower = scale_guess - 10 * i_shift` (line 92). -/
def scale_lower (d : Dataset) : ℚ := scale_guess d - 10 * i_shift d

/-- Amplitude upper bound `scale_upper = scale_guess + 10 * i_shift` (line 92). -/
def scale_upper (d : Dataset) : ℚ := scale_guess d + 10 * i_shift d

/-- Frequency lower bound `freq_lower = np.pi / 1023` (line 93). -/
noncomputable def freq_lower : ℝ := Real.pi / 1023

/-- Frequency upper bound `freq_upper = 2 * freq_guess - np.pi / 1023`
(line 93), non-finite (`none`) when the guess is. -/
noncomputable def freq_upper (d : Dataset) : Option ℝ :=
  (freq_guess d).map (fun g => 2 * g - Real.pi / 1023)

/-- Intensity-floor lower bound `is_lower = 0.0` (line 94). -/
def is_lower : ℚ := 0

/-- Intensity-floor upper bound `is_upper = 10 * i_shift` (line 94). -/
def is_upper (d : Dataset) : ℚ := 10 * i_shift d

/-- Argument record of the `sp.curve_fit` call at lines 98-101: the
initial guess vector `p_guess0` (line 89) and the bound vectors
`lower0` and `upper0` (lines 95-96), by parameter. -/
structure Stage0Call where
  guess_ps : ℚ
  guess_scale : ℚ
  guess_freq : Option ℝ
  guess_shift : ℚ
  bound_lo_ps : ℚ
  bound_lo_scale : ℚ
  bound_lo_freq : ℝ
  bound_lo_shift : ℚ
  bound_hi_ps : ℚ
  bound_hi_scale : ℚ
  bound_hi_freq : Option ℝ
  bound_hi_shift : ℚ

/-- Stage-0 guess and bound construction (lines 85-96) followed by the
`sp.curve_fit` call it reaches (lines 98-101), embedded with its Python
error behaviour: `np.argmax` and `np.max` raise a ValueError on an
empty array, and nothing else in lines 85-101 raises — in particular a
zero divisor in the frequency guess yields the non-finite value `inf`
(`none` here), not an exception — so for every non-empty dataset the
solver call is reached with the arguments below. -/
noncomputable def stage0_run (d : Dataset) : Except String Stage0Call :=
  if d = [] then .error "attempt to get argmax of an empty sequence"
  else .ok
    { guess_ps := ps_guess d
      guess_scale := scale_guess d
      guess_freq := freq_guess d
      guess_shift := i_shift d
      bound_lo_ps := ps_lower d
      bound_lo_scale := scale_lower d
      bound_lo_freq := freq_lower
      bound_lo_shift := is_lower
      bound_hi_ps := ps_upper d
      bound_hi_scale := scale_upper d
      bound_hi_freq := freq_upper d
      bound_hi_shift := is_upper d }

theorem i_shift_mem {d : Dataset} (hne : d ≠ []) : i_shift d ∈ intensity d := by
  have hint : intensity d ≠ [] := by simpa [intensity] using hne
  cases hmin : npArgmin (intensity d) with
  | none => exact absurd hmin (npArgmin_ne_none hint)
  | some mv =>
    obtain ⟨jm, vm⟩ := mv
    have : i_shift d = vm := by simp [i_shift, hmin]
    rw [this]
    exact npArgmin_getD_mem hmin

theorem freqDenom_nonneg (d : Dataset) : 0 ≤ freqDenom d := by
  have : (0 : ℚ) ≤ |ps_guess d - (grey d).getD (minIdx d) 0| := abs_nonneg _
  rw [freqDenom, ratAbs_eq_abs]
  linarith

/-- Specification sentences for the stage-0 guess and bound construction
(spec section 4.2, Stage 0): the phase-offset guess is the greyscale at
an index of maximum intensity within the first 30 samples, bounds
guess ± 50; the amplitude guess is the dataset-wide intensity maximum,
bounds guess ± 10·floor; the frequency guess is
π / (2·|greyscale at peak − greyscale at intensity minimum|), bounds
[π/1023, 2·guess − π/1023]; the intensity-floor guess is the intensity
minimum, bounds [0, 10·guess]. -/
def Stage0GuessSpec (d : Dataset) : Prop :=
  (∃ j, j < ((intensity d).take 30).length
     ∧ (∀ y ∈ (intensity d).take 30, y ≤ (intensity d).getD j 0)
     ∧ ps_guess d = (grey d).getD j 0
     ∧ ps_lower d = ps_guess d - 50
     ∧ ps_upper d = ps_guess d + 50)
  ∧ (scale_guess d ∈ intensity d
     ∧ (∀ y ∈ intensity d, y ≤ scale_guess d)
     ∧ scale_lower d = scale_guess d - 10 * i_shift d
     ∧ scale_upper d = scale_guess d + 10 * i_shift d)
  ∧ (∃ jm, jm < (intensity d).length
     ∧ (∀ y ∈ intensity d, (intensity d).getD jm 0 ≤ y)
     ∧ freq_guess d
         = some (Real.pi / (2 * |(ps_guess d : ℝ) - ((grey d).getD jm 0 : ℝ)|))
     ∧ freq_lower = Real.pi / 1023
     ∧ freq_upper d
         = some (2 * (Real.pi / (2 * |(ps_guess d : ℝ) - ((grey d).getD jm 0 : ℝ)|))
             - Real.pi / 1023))
  ∧ (i_shift d ∈ intensity d
     ∧ (∀ y ∈ intensity d, i_shift d ≤ y)
     ∧ is_lower = 0
     ∧ is_upper d = 10 * i_shift d)

/-- Claim C2: for every non-empty dataset whose peak greyscale differs
from the minimum-intensity greyscale, the stage-0 guess/bounds
construction produces exactly the phase-offset, amplitude, frequency and
intensity-floor guesses and bounds stated in the specification. -/
theorem stage0_guess_bounds_spec (d : Dataset) (hne : d ≠ [])
    (hdeg : freqDenom d ≠ 0) : Stage0GuessSpec d := by
  have hint : intensity d ≠ [] := by simpa [intensity] using hne
  have hwin : (intensity d).take 30 ≠ [] := by
    intro hcontra
    rcases List.take_eq_nil_iff.mp hcontra with h | h
    · omega
    · exact hint h
  cases hmax : npArgmax ((intensity d).take 30) with
  | none => exact absurd hmax (npArgmax_ne_none hwin)
  | some jv =>
    obtain ⟨j, v⟩ := jv
    obtain ⟨hjlen, hjget, hjle⟩ := npArgmax_spec hmax
    cases hamax : npArgmax (intensity d) with
    | none => exact absurd hamax (npArgmax_ne_none hint)
    | some av =>
      obtain ⟨ja, va⟩ := av
      obtain ⟨halen, haget, hale⟩ := npArgmax_spec hamax
      cases hmin : npArgmin (intensity d) with
      | none => exact absurd hmin (npArgmin_ne_none hint)
      | some mv =>
        obtain ⟨jm, vm⟩ := mv
        obtain ⟨hmlen, hmget, hmle⟩ := npArgmin_spec hmin
        have hpeak : peakIdx d = j := by simp [peakIdx, hmax]
        have hminIdx : minIdx d = jm := by simp [minIdx, hmin]
        have hscale : scale_guess d = va := by simp [scale_guess, hamax]
        have hshift : i_shift d = vm := by simp [i_shift, hmin]
        have hfd : freq_guess d = some (Real.pi / (freqDenom d : ℝ)) := by
          simp [freq_guess, hdeg]
        have hcast : (freqDenom d : ℝ)
            = 2 * |(ps_guess d : ℝ) - ((grey d).getD jm 0 : ℝ)| := by
          rw [freqDenom, hminIdx, ratAbs_eq_abs]
          push_cast
          rfl
        refine ⟨⟨j, hjlen, ?_, ?_, rfl, rfl⟩, ⟨?_, ?_, rfl, rfl⟩,
          ⟨jm, hmlen, ?_, ?_, rfl, ?_⟩, ⟨i_shift_mem hne, ?_, rfl, rfl⟩⟩
        · intro y hy
          rw [← getD_take_eq hjlen, hjget]
          exact hjle y hy
        · simp [ps_guess, hpeak]
        · rw [hscale]
          exact npArgmax_getD_mem hamax
        · rw [hscale]
          exact hale
        · rw [hmget]
          exact hmle
        · rw [hfd, hcast]
        · rw [freq_upper, hfd, hcast]
          rfl
        · intro y hy
          rw [hshift]
          exact hmle y hy

/-- Claim C2 witness: the construction property evaluated on the
concrete dataset [(0, 10), (100, 1)]. -/
theorem stage0_guess_bounds_spec_witness :
    (([((0 : ℚ), (10 : ℚ)), (100, 1)] : Dataset) ≠ []
      ∧ freqDenom [((0 : ℚ), (10 : ℚ)), (100, 1)] ≠ 0)
    ∧ Stage0GuessSpec [((0 : ℚ), (10 : ℚ)), (100, 1)] := by
  have h1 : ps_guess [((0 : ℚ), (10 : ℚ)), (100, 1)] = 0 := by decide
  have h2 : minIdx [((0 : ℚ), (10 : ℚ)), (100, 1)] = 1 := by decide
  have h3 : (grey [((0 : ℚ), (10 : ℚ)), (100, 1)]).getD 1 0 = 100 := by decide
  have hfd : freqDenom [((0 : ℚ), (10 : ℚ)), (100, 1)] = 200 := by
    rw [freqDenom, h1, h2, h3]
    norm_num [ratAbs]
  exact ⟨⟨by decide, by rw [hfd]; norm_num⟩,
    stage0_guess_bounds_spec _ (by decide) (by rw [hfd]; norm_num)⟩

/-- Specification invariant for the stage-0 bound box (spec sections 3
and 4.2): every parameter's guess lies between its lower and upper
bound. -/
def Stage0BoundsOrdered (d : Dataset) : Prop :=
  (ps_lower d ≤ ps_guess d ∧ ps_guess d ≤ ps_upper d)
  ∧ (scale_lower d ≤ scale_guess d ∧ scale_guess d ≤ scale_upper d)
  ∧ (∃ g : ℝ, freq_guess d = some g ∧ freq_lower ≤ g
       ∧ freq_upper d = some (2 * g - Real.pi / 1023) ∧ g ≤ 2 * g - Real.pi / 1023)
  ∧ (is_lower ≤ i_shift d ∧ i_shift d ≤ is_upper d)

/-- Claim C8 (amended): for every non-empty dataset with non-negative
intensities whose peak/min greyscale separation is non-zero and at most
1023/2 (equivalently, the frequency-guess denominator is at most 1023,
so the guess is at least π/1023), the stage-0 construction satisfies
lower ≤ guess ≤ upper for every parameter. -/
theorem stage0_bounds_ordered (d : Dataset) (hne : d ≠ [])
    (hpos : ∀ y ∈ intensity d, 0 ≤ y)
    (h0 : freqDenom d ≠ 0) (hsep : freqDenom d ≤ 1023) :
    Stage0BoundsOrdered d := by
  have hish : 0 ≤ i_shift d := hpos _ (i_shift_mem hne)
  have hfdpos : 0 < freqDenom d := lt_of_le_of_ne (freqDenom_nonneg d) (Ne.symm h0)
  have hfdposR : (0 : ℝ) < (freqDenom d : ℝ) := by exact_mod_cast hfdpos
  have hsepR : ((freqDenom d : ℝ)) ≤ 1023 := by exact_mod_cast hsep
  have hlb : Real.pi / 1023 ≤ Real.pi / (freqDenom d : ℝ) :=
    div_le_div_of_nonneg_left Real.pi_pos.le hfdposR hsepR
  refine ⟨⟨?_, ?_⟩, ⟨?_, ?_⟩,
    ⟨Real.pi / (freqDenom d : ℝ), by simp [freq_guess, h0], hlb,
      by simp [freq_upper, freq_guess, h0], by linarith⟩,
    ⟨?_, ?_⟩⟩
  · rw [ps_lower]; linarith
  · rw [ps_upper]; linarith
  · rw [scale_lower]; linarith
  · rw [scale_upper]; linarith
  · rw [is_lower]; exact hish
  · rw [is_upper]; linarith

/-- Claim C8 witness: the bound-box invariant evaluated on the concrete
dataset [(0, 10), (50, 1)]. -/
theorem stage0_bounds_ordered_witness :
    (([((0 : ℚ), (10 : ℚ)), (50, 1)] : Dataset) ≠ []
      ∧ (∀ y ∈ intensity [((0 : ℚ), (10 : ℚ)), (50, 1)], 0 ≤ y)
      ∧ freqDenom [((0 : ℚ), (10 : ℚ)), (50, 1)] ≠ 0
      ∧ freqDenom [((0 : ℚ), (10 : ℚ)), (50, 1)] ≤ 1023)
    ∧ Stage0BoundsOrdered [((0 : ℚ), (10 : ℚ)), (50, 1)] := by
  have h1 : ps_guess [((0 : ℚ), (10 : ℚ)), (50, 1)] = 0 := by decide
  have h2 : minIdx [((0 : ℚ), (10 : ℚ)), (50, 1)] = 1 := by decide
  have h3 : (grey [((0 : ℚ), (10 : ℚ)), (50, 1)]).getD 1 0 = 50 := by decide
  have hfd : freqDenom [((0 : ℚ), (10 : ℚ)), (50, 1)] = 100 := by
    rw [freqDenom, h1, h2, h3]
    norm_num [ratAbs]
  exact ⟨⟨by decide, by decide, by rw [hfd]; norm_num, by rw [hfd]; norm_num⟩,
    stage0_bounds_ordered _ (by decide) (by decide)
      (by rw [hfd]; norm_num) (by rw [hfd]; norm_num)⟩

/-- Claim C8 counterexample: the dataset [(0, 10), (600, 1)] has
non-negative intensities, yet its frequency guess π/1200 lies strictly
below the lower bound π/1023 (the peak/min separation 600 exceeds
1023/2), and no construction-time failure occurs: the construction still
hands the solver its arguments. -/
theorem stage0_bounds_violated_cex :
    (∀ y ∈ intensity [((0 : ℚ), (10 : ℚ)), (600, 1)], 0 ≤ y)
    ∧ ¬ Stage0BoundsOrdered [((0 : ℚ), (10 : ℚ)), (600, 1)]
    ∧ ∀ s, stage0_run [((0 : ℚ), (10 : ℚ)), (600, 1)] ≠ Except.error s := by
  refine ⟨by decide, ?_, ?_⟩
  · intro h
    obtain ⟨g, hg, hlb, _, _⟩ := h.2.2.1
    have h1 : ps_guess [((0 : ℚ), (10 : ℚ)), (600, 1)] = 0 := by decide
    have h2 : minIdx [((0 : ℚ), (10 : ℚ)), (600, 1)] = 1 := by decide
    have h3 : (grey [((0 : ℚ), (10 : ℚ)), (600, 1)]).getD 1 0 = 600 := by decide
    have hfd : freqDenom [((0 : ℚ), (10 : ℚ)), (600, 1)] = 1200 := by
      rw [freqDenom, h1, h2, h3]
      norm_num [ratAbs]
    rw [freq_guess, hfd] at hg
    simp at hg
    rw [← hg] at hlb
    have : Real.pi / 1200 < Real.pi / 1023 := by
      apply div_lt_div_of_pos_left Real.pi_pos (by norm_num) (by norm_num)
    linarith
  · intro s hs
    simp [stage0_run] at hs

/-- Claim C7 counterexample: on the all-equal-intensity dataset
[(0, 5), (1, 5), (2, 5)] the peak and minimum greyscales coincide and
the frequency-guess denominator is zero, yet no degenerate-dataset
error is raised: the quotient is merely non-finite (`none`), the
construction completes and the solver call is still reached. -/
theorem degenerate_reaches_solver_cex :
    freqDenom [((0 : ℚ), (5 : ℚ)), (1, 5), (2, 5)] = 0
    ∧ freq_guess [((0 : ℚ), (5 : ℚ)), (1, 5), (2, 5)] = none
    ∧ ∀ s, stage0_run [((0 : ℚ), (5 : ℚ)), (1, 5), (2, 5)] ≠ Except.error s := by
  have h1 : ps_guess [((0 : ℚ), (5 : ℚ)), (1, 5), (2, 5)] = 0 := by decide
  have h2 : minIdx [((0 : ℚ), (5 : ℚ)), (1, 5), (2, 5)] = 0 := by decide
  have h3 : (grey [((0 : ℚ), (5 : ℚ)), (1, 5), (2, 5)]).getD 0 0 = 0 := by decide
  have hfd : freqDenom [((0 : ℚ), (5 : ℚ)), (1, 5), (2, 5)] = 0 := by
    rw [freqDenom, h1, h2, h3]
    norm_num [ratAbs]
  refine ⟨hfd, by simp [freq_guess, hfd], ?_⟩
  intro s hs
  simp [stage0_run] at hs

/-- Claim C7 (amended): for every non-empty dataset whose peak greyscale
equals the minimum-intensity greyscale, the stage-0 frequency-guess
denominator is zero and the guess is the non-finite quotient (`none`);
the construction raises nothing and the solver call is still reached —
the script contains no degenerate-dataset error path. -/
theorem degenerate_yields_nonfinite_guess (d : Dataset) (hne : d ≠ [])
    (hdeg : ps_guess d = (grey d).getD (minIdx d) 0) :
    freqDenom d = 0 ∧ freq_guess d = none
    ∧ ∀ s, stage0_run d ≠ Except.error s := by
  have hfd : freqDenom d = 0 := by
    rw [freqDenom, hdeg]
    simp [ratAbs]
  refine ⟨hfd, by simp [freq_guess, hfd], ?_⟩
  intro s hs
  rw [stage0_run, if_neg hne] at hs
  exact Except.noConfusion hs

/-- Claim C7 witness: the amended degenerate behaviour evaluated on the
concrete dataset [(0, 7), (5, 7)]. -/
theorem degenerate_yields_nonfinite_guess_witness :
    (([((0 : ℚ), (7 : ℚ)), (5, 7)] : Dataset) ≠ []
      ∧ ps_guess [((0 : ℚ), (7 : ℚ)), (5, 7)]
          = (grey [((0 : ℚ), (7 : ℚ)), (5, 7)]).getD
              (minIdx [((0 : ℚ), (7 : ℚ)), (5, 7)]) 0)
    ∧ (freqDenom [((0 : ℚ), (7 : ℚ)), (5, 7)] = 0
      ∧ freq_guess [((0 : ℚ), (7 : ℚ)), (5, 7)] = none
      ∧ ∀ s, stage0_run [((0 : ℚ), (7 : ℚ)), (5, 7)] ≠ Except.error s) :=
  ⟨⟨by decide, by decide⟩,
    degenerate_yields_nonfinite_guess _ (by decide) (by decide)⟩

/-- Number of wavelength data files listed in `data_paths`
(`calibrate.py` lines 6-12). -/
def data_paths_length : Nat := 5

/-- Dataset indices the script actually fits: the loop header at line 82
reads `for i in range(1)`. -/
def processed_indices : List Nat := List.range 1

/-- Cascade stages whose `sp.curve_fit` call is live code inside the
loop: only the stage-0 linear fit at lines 98-101; the stage-1 and
stage-2 fits (lines 108-111 and 117-120) are commented out. -/
def active_stages : List Nat := [0]

/-- Claim C3 evaluated on the code: the script loops over `range(1)`, so
of the five supplied wavelength datasets only index 0 is fitted, and
only the linear stage-0 fit is live — the claimed per-wavelength
three-stage cascade over every supplied wavelength does not run. -/
theorem loop_processes_single_wavelength :
    processed_indices = [0]
    ∧ data_paths_length = 5
    ∧ ¬ 1 ∈ processed_indices
    ∧ ¬ 4 ∈ processed_indices
    ∧ active_stages ≠ [0, 1, 2] := by decide

/-- Fitting work of one loop iteration as a function of the loaded
dataset: the stage-0 guess/bound construction followed by the solver
call, the solver being a fixed function of the call arguments (the
script seeds `sp.curve_fit` with nothing besides those arguments, and
nothing else in lines 83-101 reads mutable or random state). -/
noncomputable def run_fit (solver : Stage0Call → List ℝ) (d : Dataset) :
    Except String (List ℝ) :=
  (stage0_run d).map solver

/-- Claim C9: the cascade is deterministic — two runs of the fitting
pipeline on identical datasets produce identical fitted-parameter
results, for any solver function. -/
theorem cascade_deterministic (solver : Stage0Call → List ℝ) (d1 d2 : Dataset)
    (h : d1 = d2) : run_fit solver d1 = run_fit solver d2 := by rw [h]

/-- Claim C9 witness: determinism evaluated at a concrete solver and the
concrete dataset [(0, 5), (1, 6)]. -/
theorem cascade_deterministic_witness :
    ([((0 : ℚ), (5 : ℚ)), (1, 6)] : Dataset) = [((0 : ℚ), (5 : ℚ)), (1, 6)]
    ∧ run_fit (fun _ => [1, 2, 3, 4]) [((0 : ℚ), (5 : ℚ)), (1, 6)]
        = run_fit (fun _ => [1, 2, 3, 4]) [((0 : ℚ), (5 : ℚ)), (1, 6)] :=
  ⟨rfl, cascade_deterministic _ _ _ rfl⟩

/-- Tolerance `EPS = 1E-12` (line 57). -/
noncomputable def EPS : ℝ := 1 / 10 ^ 12

/-- Guess vector for the cascade stage following a fit that returned the
parameter vector `p`: `np.append(p, 0.0)` (lines 104 and 113, the
commented-out cascade stages of `calibrate.py`). -/
def next_guess (p : List ℝ) : List ℝ := p ++ [0]

/-- Lower bound vector `np.append(p - EPS, [-np.inf])` (lines 105 and
114), with `⊥ : EReal` standing for `-np.inf`. -/
noncomputable def next_lower (p : List ℝ) : List EReal :=
  p.map (fun t => ((t - EPS : ℝ) : EReal)) ++ [⊥]

/-- Upper bound vector `np.append(p + EPS, [np.inf])` (lines 106 and
115), with `⊤ : EReal` standing for `np.inf`. -/
noncomputable def next_upper (p : List ℝ) : List EReal :=
  p.map (fun t => ((t + EPS : ℝ) : EReal)) ++ [⊤]

/-- Claim C4: for every prior-stage parameter vector `p`, the next
stage's guess vector is `p` extended with `0.0`, the lower bounds are
`p − ε` elementwise with `−∞` for the new coefficient, the upper bounds
are `p + ε` elementwise with `+∞` for the new coefficient, and
`ε = 10^(−12)`. -/
theorem next_stage_guess_bounds (p : List ℝ) :
    (next_guess p).length = p.length + 1
    ∧ (∀ i, i < p.length → (next_guess p).getD i 0 = p.getD i 0)
    ∧ (next_guess p).getD p.length 0 = 0
    ∧ (next_lower p).length = p.length + 1
    ∧ (∀ i, i < p.length → (next_lower p).getD i 0 = ((p.getD i 0 - EPS : ℝ) : EReal))
    ∧ (next_lower p).getD p.length 0 = ⊥
    ∧ (next_upper p).length = p.length + 1
    ∧ (∀ i, i < p.length → (next_upper p).getD i 0 = ((p.getD i 0 + EPS : ℝ) : EReal))
    ∧ (next_upper p).getD p.length 0 = ⊤
    ∧ EPS = 1 / 10 ^ 12 := by
  refine ⟨by simp [next_guess], ?_, ?_, by simp [next_lower], ?_, ?_,
    by simp [next_upper], ?_, ?_, rfl⟩
  · intro i hi
    rw [next_guess, List.getD_append _ _ _ _ hi]
  · rw [next_guess, List.getD_append_right _ _ _ _ le_rfl]
    simp
  · intro i hi
    have him : i < (p.map (fun t => ((t - EPS : ℝ) : EReal))).length := by
      simpa using hi
    rw [next_lower, List.getD_append _ _ _ _ him,
      List.getD_eq_getElem _ _ him, List.getElem_map,
      List.getD_eq_getElem _ _ hi]
  · rw [next_lower, List.getD_append_right _ _ _ _ (by simp)]
    simp
  · intro i hi
    have him : i < (p.map (fun t => ((t + EPS : ℝ) : EReal))).length := by
      simpa using hi
    rw [next_upper, List.getD_append _ _ _ _ him,
      List.getD_eq_getElem _ _ him, List.getElem_map,
      List.getD_eq_getElem _ _ hi]
  · rw [next_upper, List.getD_append_right _ _ _ _ (by simp)]
    simp

/-- Claim C4 witness: the next-stage guess/bounds construction evaluated
on the concrete parameter vector [3, 5]. -/
theorem next_stage_guess_bounds_witness :
    ((0 : Nat) < ([3, 5] : List ℝ).length)
    ∧ (next_guess [3, 5]).getD 0 0 = ([3, 5] : List ℝ).getD 0 0
    ∧ (next_guess [3, 5]).getD 2 0 = 0
    ∧ (next_lower [3, 5]).getD 0 0 = ((([3, 5] : List ℝ).getD 0 0 - EPS : ℝ) : EReal)
    ∧ (next_lower [3, 5]).getD 2 0 = ⊥
    ∧ (next_upper [3, 5]).getD 0 0 = ((([3, 5] : List ℝ).getD 0 0 + EPS : ℝ) : EReal)
    ∧ (next_upper [3, 5]).getD 2 0 = ⊤ := by
  obtain ⟨-, hg, hg2, -, hl, hl2, -, hu, hu2, -⟩ := next_stage_guess_bounds [3, 5]
  exact ⟨by norm_num, hg 0 (by norm_num), hg2, hl 0 (by norm_num), hl2,
    hu 0 (by norm_num), hu2⟩

/-- Variance vector `p_var = np.diag(cov)` of a covariance matrix
(line 122 of the commented-out aggregation in `calibrate.py`). -/
def p_var (cov : Nat → Nat → ℝ) (i : Nat) : ℝ := cov i i

/-- First-order nonlinearity `p_optimize2[4] / p_optimize2[2]` (line 126). -/
noncomputable def nonlinearity1 (p : List ℝ) : ℝ := p.getD 4 0 / p.getD 2 0

/-- Second-order nonlinearity `p_optimize2[5] / p_optimize2[2]` (line 127). -/
noncomputable def nonlinearity2 (p : List ℝ) : ℝ := p.getD 5 0 / p.getD 2 0

/-- Propagated error bar `np.sqrt(p_var[2] + p_var[4])` (line 128). -/
noncomputable def err1 (cov : Nat → Nat → ℝ) : ℝ :=
  Real.sqrt (p_var cov 2 + p_var cov 4)

/-- Propagated error bar `np.sqrt(p_var[2] + p_var[5])` (line 129). -/
noncomputable def err2 (cov : Nat → Nat → ℝ) : ℝ :=
  Real.sqrt (p_var cov 2 + p_var cov 5)

/-- Claim C5: the aggregator's nonlinearity ratios are
param[4] / param[2] and param[5] / param[2] (characterized
multiplicatively for nonzero param[2]), and the propagated standard
errors are the non-negative square roots of Var(param[2]) + Var(param[4])
and Var(param[2]) + Var(param[5]), the variances taken from the diagonal
of the final covariance matrix. -/
theorem aggregator_ratio_and_error (p : List ℝ) (cov : Nat → Nat → ℝ)
    (hp : p.getD 2 0 ≠ 0)
    (h1 : 0 ≤ cov 2 2 + cov 4 4) (h2 : 0 ≤ cov 2 2 + cov 5 5) :
    nonlinearity1 p * p.getD 2 0 = p.getD 4 0
    ∧ nonlinearity2 p * p.getD 2 0 = p.getD 5 0
    ∧ err1 cov ^ 2 = p_var cov 2 + p_var cov 4
    ∧ 0 ≤ err1 cov
    ∧ err2 cov ^ 2 = p_var cov 2 + p_var cov 5
    ∧ 0 ≤ err2 cov := by
  refine ⟨?_, ?_, ?_, Real.sqrt_nonneg _, ?_, Real.sqrt_nonneg _⟩
  · rw [nonlinearity1, div_mul_cancel₀ _ hp]
  · rw [nonlinearity2, div_mul_cancel₀ _ hp]
  · exact Real.sq_sqrt h1
  · exact Real.sq_sqrt h2

/-- Claim C5 witness: the aggregation formulas evaluated on the concrete
parameter vector [0, 0, 2, 0, 6, 10] and the constant covariance
matrix 2. -/
theorem aggregator_ratio_and_error_witness :
    (([0, 0, 2, 0, 6, 10] : List ℝ).getD 2 0 ≠ 0
      ∧ (0 : ℝ) ≤ 2 + 2 ∧ (0 : ℝ) ≤ 2 + 2)
    ∧ (nonlinearity1 [0, 0, 2, 0, 6, 10] * ([0, 0, 2, 0, 6, 10] : List ℝ).getD 2 0
          = ([0, 0, 2, 0, 6, 10] : List ℝ).getD 4 0
      ∧ nonlinearity2 [0, 0, 2, 0, 6, 10] * ([0, 0, 2, 0, 6, 10] : List ℝ).getD 2 0
          = ([0, 0, 2, 0, 6, 10] : List ℝ).getD 5 0
      ∧ err1 (fun _ _ => 2) ^ 2 = p_var (fun _ _ => 2) 2 + p_var (fun _ _ => 2) 4
      ∧ 0 ≤ err1 (fun _ _ => 2)
      ∧ err2 (fun _ _ => 2) ^ 2 = p_var (fun _ _ => 2) 2 + p_var (fun _ _ => 2) 5
      ∧ 0 ≤ err2 (fun _ _ => 2)) :=
  ⟨⟨by norm_num, by norm_num, by norm_num⟩,
    aggregator_ratio_and_error [0, 0, 2, 0, 6, 10] (fun _ _ => 2)
      (by norm_num) (by norm_num) (by norm_num)⟩

/-- Relative measurement error `REL_Y_ERR = 0.0012` (line 56). -/
noncomputable def REL_Y_ERR : ℝ := 0.0012

/-- Sigma vector `REL_Y_ERR * intensity` passed as the `sigma` argument
of every `sp.curve_fit` call in the script: line 100 for the live
stage-0 call, and identically at lines 110 and 119 in the commented-out
stage-1/2 calls. -/
noncomputable def fit_sigma (ys : List ℝ) : List ℝ := ys.map (fun y => REL_Y_ERR * y)

/-- Absolute-sigma flag `absolute_sigma=True` passed to every
`sp.curve_fit` call (lines 100, 110, 119): the returned covariance is
absolute, not rescaled by the residual variance. -/
def fit_absolute_sigma : Bool := true

/-- Weighted least-squares objective minimized by
`scipy.optimize.curve_fit` for data `(xs, ys)` and a sigma vector `σs`,
per its documented contract: the sum of the squared sigma-scaled
residuals. -/
noncomputable def weighted_objective (f : ℝ → ℝ) (xs ys σs : List ℝ) : ℝ :=
  ((xs.zip (ys.zip σs)).map (fun t => ((t.2.1 - f t.1) / t.2.2) ^ 2)).sum

/-- Claim C6: for every model `f` and dataset, the objective induced by
the sigma vector the script passes equals
Σ (intensity_i − f(x_i))² / (REL_Y_ERR · intensity_i)², with
REL_Y_ERR = 0.0012 = 12/10000, and the covariance is scaled absolutely
(absolute_sigma is set). -/
theorem fit_call_weighting (f : ℝ → ℝ) (xs ys : List ℝ) :
    weighted_objective f xs ys (fit_sigma ys)
        = ((xs.zip ys).map (fun t => (t.2 - f t.1) ^ 2 / (REL_Y_ERR * t.2) ^ 2)).sum
    ∧ REL_Y_ERR = 12 / 10000
    ∧ fit_absolute_sigma = true := by
  refine ⟨?_, by norm_num [REL_Y_ERR], rfl⟩
  rw [weighted_objective, fit_sigma]
  induction xs generalizing ys with
  | nil => simp
  | cons x xs ih =>
    cases ys with
    | nil => simp
    | cons y ys =>
      simp only [List.map_cons, List.zip_cons_cons, List.sum_cons]
      rw [ih]
      congr 1
      rw [div_pow]

end Calib

namespace Slm

/-- Dyadic power `2 ^ e` over `ℚ` for an integer exponent. -/
def twoPow (e : ℤ) : ℚ := 2 ^ e

/-- Largest integer `e` with `2 ^ e ≤ x`, searched over `e ∈ [-32, 31]`,
an exponent range covering every value arising in the phase-register
conversion of `slm.py`. -/
def floorLog2 (x : ℚ) : ℤ :=
  (((List.range 64).map (fun n => (n : ℤ) - 32)).filter
    (fun e => decide (twoPow e ≤ x))).foldl max (-32)

theorem foldl_max_eq {m : ℤ} :
    ∀ (l : List ℤ) (acc : ℤ), (m ∈ l ∨ m = acc) → (∀ a ∈ l, a ≤ m) → acc ≤ m →
      l.foldl max acc = m := by
  intro l
  induction l with
  | nil =>
    intro acc hmem _ _
    rcases hmem with h | h
    · exact absurd h (List.not_mem_nil m)
    · rw [List.foldl_nil, h]
  | cons x xs ih =>
    intro acc hmem hub hacc
    have hxle : x ≤ m := hub x (by simp)
    have hax : max acc x ≤ m := max_le hacc hxle
    rw [List.foldl_cons]
    apply ih (max acc x) ?_ (fun a ha => hub a (by simp [ha])) hax
    rcases hmem with h | h
    · rcases List.mem_cons.mp h with h | h
      · right
        rw [h]
        exact (max_eq_right (h ▸ hacc)).symm
      · left
        exact h
    · right
      rw [h]
      exact (max_eq_left (h ▸ hxle)).symm

theorem floorLog2_eq {x : ℚ} {e : ℤ} (hlo : -32 ≤ e) (hhi : e < 32)
    (h1 : twoPow e ≤ x) (h2 : x < twoPow (e + 1)) : floorLog2 x = e := by
  rw [floorLog2]
  apply foldl_max_eq _ _ ?_ ?_ hlo
  · left
    have hn1 : (e + 32).toNat < 64 := by omega
    have hn2 : ((e + 32).toNat : ℤ) - 32 = e := by omega
    have hmem2 : e ∈ (List.range 64).map (fun n => (n : ℤ) - 32) := by
      rw [← hn2]
      exact List.mem_map_of_mem (fun n : ℕ => (n : ℤ) - 32) (List.mem_range.mpr hn1)
    exact List.mem_filter.mpr ⟨hmem2, by simpa using h1⟩
  · intro a ha
    rw [List.mem_filter] at ha
    obtain ⟨-, ha2⟩ := ha
    have hax : twoPow a ≤ x := of_decide_eq_true ha2
    by_contra hcon
    push_neg at hcon
    have hmono : twoPow (e + 1) ≤ twoPow a := by
      rw [twoPow, twoPow]
      exact zpow_le_zpow_right₀ (by norm_num) (by omega)
    linarith

/-- Round a rational to the nearest integer, ties to even — the rounding
of IEEE-754 round-to-nearest-even applied to the scaled significand. -/
def roundHalfEven (s : ℚ) : ℤ :=
  if s - Int.floor s < 1 / 2 then Int.floor s
  else if (1 : ℚ) / 2 < s - Int.floor s then Int.floor s + 1
  else if Int.floor s % 2 = 0 then Int.floor s else Int.floor s + 1

/-- Value of the IEEE-754 binary64 (Python `float`) nearest to a
positive rational in the normal range: the 53-bit significand is
rounded to nearest, ties to even.  This models the float literals and
float arithmetic of the phase-register conversion in `slm.py`;
non-positive inputs do not arise there and are mapped to zero. -/
def fl (x : ℚ) : ℚ :=
  if x ≤ 0 then 0
  else (roundHalfEven (x * twoPow (52 - floorLog2 x)) : ℚ) * twoPow (floorLog2 x - 52)

theorem floor_eval {q : ℚ} {z : ℤ} (h1 : (z : ℚ) ≤ q) (h2 : q < z + 1) :
    Int.floor q = z := by
  rw [Int.floor_eq_iff]
  exact ⟨h1, h2⟩

theorem roundHalfEven_eq_floor {s : ℚ} {n : ℤ} (hf : (n : ℚ) ≤ s) (hlt : s < n + 1)
    (hfrac : s - n < 1 / 2) : roundHalfEven s = n := by
  rw [roundHalfEven, floor_eval hf hlt, if_pos hfrac]

theorem roundHalfEven_eq_ceil {s : ℚ} {n : ℤ} (hf : (n : ℚ) ≤ s) (hlt : s < n + 1)
    (hfrac : 1 / 2 < s - n) : roundHalfEven s = n + 1 := by
  rw [roundHalfEven, floor_eval hf hlt, if_neg (by linarith), if_pos hfrac]

theorem fl_eval {x : ℚ} {e : ℤ} {m : ℤ} (h : 0 < x)
    (hlo : -32 ≤ e) (hhi : e < 32)
    (h1 : twoPow e ≤ x) (h2 : x < twoPow (e + 1))
    (hm : roundHalfEven (x * twoPow (52 - e)) = m) :
    fl x = m * twoPow (e - 52) := by
  rw [fl, if_neg (not_le.mpr h), floorLog2_eq hlo hhi h1 h2, hm]

/-- Binary64 value held by the `Phase` spinbox when it is set to the
hundredth `k / 100` (the spinbox stores a Python float; `slm.py`
line 209, step 0.01 over [0.00, 9.99]). -/
def phaseValue (k : ℕ) : ℚ := fl ((k : ℚ) / 100)

/-- Register value written by Set Tuning (`slm.py` line 446):
`int(self.params['Phase'].value * 100)` — the binary64 product rounded,
then truncated toward zero by `int` (equal to the floor for the
non-negative phases in range). -/
def tuningRegister (p : ℚ) : ℤ := Int.floor (fl (p * 100))

/-- Phase recovered by the read paths, Toggle Open and Phase Settings
(`slm.py` lines 313 and 430): `float(phase.value / 100)` from the
register value. -/
def readPhase (r : ℤ) : ℚ := fl ((r : ℚ) / 100)

theorem phaseValue_29 : phaseValue 29 = 5224175567749775 / 2 ^ 54 := by
  rw [phaseValue, show ((29 : ℕ) : ℚ) / 100 = 29 / 100 by norm_num]
  rw [fl_eval (e := -2) (m := 5224175567749775)
      (by norm_num) (by norm_num) (by norm_num)
      (by rw [twoPow]; norm_num) (by rw [twoPow]; norm_num)
      (roundHalfEven_eq_floor (n := 5224175567749775)
        (by rw [twoPow]; norm_num) (by rw [twoPow]; norm_num)
        (by rw [twoPow]; norm_num))]
  rw [twoPow]
  norm_num

theorem tuningRegister_phase29 :
    tuningRegister (5224175567749775 / 2 ^ 54) = 28 := by
  rw [tuningRegister]
  rw [fl_eval (e := 4) (m := 8162774324609023)
      (by norm_num) (by norm_num) (by norm_num)
      (by rw [twoPow]; norm_num) (by rw [twoPow]; norm_num)
      (roundHalfEven_eq_floor
        (by rw [twoPow]; norm_num) (by rw [twoPow]; norm_num)
        (by rw [twoPow]; norm_num))]
  apply floor_eval <;> rw [twoPow] <;> norm_num

theorem readPhase_28 : readPhase 28 = 5044031582654956 / 2 ^ 54 := by
  rw [readPhase, show (((28 : ℤ)) : ℚ) / 100 = 28 / 100 by norm_num]
  rw [fl_eval (e := -2) (m := 5044031582654955 + 1)
      (by norm_num) (by norm_num) (by norm_num)
      (by rw [twoPow]; norm_num) (by rw [twoPow]; norm_num)
      (roundHalfEven_eq_ceil
        (by rw [twoPow]; norm_num) (by rw [twoPow]; norm_num)
        (by rw [twoPow]; norm_num))]
  rw [twoPow]
  norm_num

/-- Sanity check of the float model: the modelled binary64 value of the
Phase spinbox at 0.29 lies within half an ulp (2^(−55)) of 29/100, so it
is the correctly rounded double. -/
theorem phaseValue_29_within_half_ulp :
    |phaseValue 29 - 29 / 100| ≤ 1 / 2 ^ 55 := by
  rw [phaseValue_29, abs_le]
  constructor <;> norm_num

/-- Claim C10 evaluated at the failing input Phase = 0.29: the binary64
value of 0.29 is 5224175567749775/2^54; Set Tuning writes the register
int(100 × Phase) = 28, because the binary64 product is
28.999999999999996… and `int` truncates toward zero; the read paths then
recover Phase = float(28/100) ≠ 0.29 — the documented register format
(e.g. 2.00 -> 200, so 0.29 -> 29) and the round-trip both fail. -/
theorem phase_roundtrip_fails_at_29 :
    phaseValue 29 = 5224175567749775 / 2 ^ 54
    ∧ tuningRegister (phaseValue 29) = 28
    ∧ readPhase (tuningRegister (phaseValue 29)) ≠ phaseValue 29 := by
  refine ⟨phaseValue_29, ?_, ?_⟩
  · rw [phaseValue_29]
    exact tuningRegister_phase29
  · rw [phaseValue_29, tuningRegister_phase29, readPhase_28]
    norm_num

end Slm
